import Mathlib

/-!
Verification of the maana-ai-goap GOAP engine against its specification.

The repository ships two source artifacts: `src/graphql/common/types/WorldState.js`
(the world-state representation) and the GraphQL schema.  The world-state code is
embedded faithfully below, including the JavaScript object-key ordering that its
`Object.values` calls depend on.  The remaining engine parts (scalar values,
operator tables, transition semantics, the A* planner and the query resolvers)
are not present in the repository sources and are modelled from the spec; each
such definition carries a doc comment starting with `Modelled from the spec:`.

`FLOAT` scalars and transition costs are modelled as rationals (ℚ): no claim
under verification depends on binary floating-point rounding.
-/

namespace Goap

/-- The four type tags of the data model (§3 of the spec). -/
inductive Ty where
  | STRING
  | INT
  | FLOAT
  | BOOLEAN
deriving DecidableEq

/-- Modelled from the spec: the tagged scalar `Value` (§3, §4.2); the scalar
module is absent from the repository sources.  FLOAT is modelled as ℚ. -/
inductive Value where
  | str (s : String)
  | int (i : Int)
  | float (q : ℚ)
  | bool (b : Bool)
deriving DecidableEq

def Value.tag : Value → Ty
  | .str _ => .STRING
  | .int _ => .INT
  | .float _ => .FLOAT
  | .bool _ => .BOOLEAN

/-- Modelled from the spec: each type's zero value (§4.3). -/
def Ty.zero : Ty → Value
  | .STRING => .str ""
  | .INT => .int 0
  | .FLOAT => .float 0
  | .BOOLEAN => .bool false

def Ty.label : Ty → String
  | .STRING => "STRING"
  | .INT => "INT"
  | .FLOAT => "FLOAT"
  | .BOOLEAN => "BOOLEAN"

def Value.render : Value → String
  | .str s => s
  | .int i => toString i
  | .float q => toString q
  | .bool b => toString b

/-- The error kinds of §7 of the spec. -/
inductive GoapError where
  | schemaError
  | malformedValue
  | malformedArgument
  | typeMismatch
  | unsupportedOperator
  | duplicateAssignment
  | arithmeticError
deriving DecidableEq

/-- A state variable (§3); `description` is omitted as no operation reads it. -/
structure Variable where
  id : String
  typeOf : Ty
  weight : ℚ
deriving DecidableEq

/-- The GraphQL wire form `VariableValueInput`: exactly one of the four value
fields must be populated (§6). -/
structure VariableValueInput where
  variableId : String
  STRING : Option String
  INT : Option Int
  FLOAT : Option ℚ
  BOOLEAN : Option Bool
deriving DecidableEq

/-- Modelled from the spec: `parseFromInput` (§4.2); exactly one field set,
else `MalformedValue`.  The scalar module is absent from the repository. -/
def parseValue (b : VariableValueInput) : Except GoapError Value :=
  match b.STRING, b.INT, b.FLOAT, b.BOOLEAN with
  | some s, none, none, none => .ok (.str s)
  | none, some i, none, none => .ok (.int i)
  | none, none, some q, none => .ok (.float q)
  | none, none, none, some x => .ok (.bool x)
  | _, _, _, _ => .error .malformedValue

/-- A typed binding `{ variableId, value }` (§3). -/
structure VariableValue where
  variableId : String
  value : Value
deriving DecidableEq

/-- Modelled from the spec: the `VariableValue` constructor invoked by
`WorldState.js` (`new VariableValue({...b, variables})`) is absent from the
repository sources.  Per §3/§4.2/§7 it resolves the variable in the table
(missing id ⇒ `SchemaError`), parses the single populated value field, and
requires the value's tag to equal the variable's `typeOf` (`TypeMismatch`). -/
def VariableValue.build (varTable : List Variable) (b : VariableValueInput) :
    Except GoapError VariableValue :=
  match varTable.find? (fun v => v.id == b.variableId) with
  | none => .error .schemaError
  | some v =>
    match parseValue b with
    | .error e => .error e
    | .ok val =>
      if val.tag = v.typeOf then .ok ⟨b.variableId, val⟩ else .error .typeMismatch

/-- Modelled from the spec: the `id` of a `VariableValue` (used by
`WorldState.id`) renders the content `(variableId, tag, value)`; the class is
absent from the repository sources. -/
def VariableValue.idStr (v : VariableValue) : String :=
  v.variableId ++ "=" ++ v.value.tag.label ++ ":" ++ v.value.render

/-- JavaScript property assignment `this[k] = v` on a plain object: an existing
key keeps its position and is overwritten, a new key is appended. -/
def jsAssign : List (String × VariableValue) → String → VariableValue →
    List (String × VariableValue)
  | [], k, v => [(k, v)]
  | p :: ps, k, v => if p.1 == k then (k, v) :: ps else p :: jsAssign ps k v

def digitVal (c : Char) : Option Nat :=
  if 48 ≤ c.toNat ∧ c.toNat ≤ 57 then some (c.toNat - 48) else none

def parseDigitsAux : List Char → Nat → Option Nat
  | [], acc => some acc
  | c :: cs, acc =>
    match digitVal c with
    | some d => parseDigitsAux cs (acc * 10 + d)
    | none => none

/-- A string key counts as a JavaScript array index iff it is the canonical
decimal form (digits only, no leading zero except "0" itself) of an integer
below 2^32 - 1. -/
def natKey (s : String) : Option Nat :=
  match s.data with
  | [] => none
  | c :: cs =>
    if c.toNat = 48 ∧ cs ≠ [] then none
    else match parseDigitsAux (c :: cs) 0 with
      | some n => if n < 4294967295 then some n else none
      | none => none

def insertIdx (p : String × VariableValue) :
    List (String × VariableValue) → List (String × VariableValue)
  | [] => [p]
  | q :: qs =>
    if (natKey p.1).getD 0 ≤ (natKey q.1).getD 0 then p :: q :: qs else q :: insertIdx p qs

/-- JavaScript own-property order, as observed by `Object.values`: array-index
keys first in ascending numeric order, then the other string keys in insertion
order. -/
def jsPropOrder (es : List (String × VariableValue)) : List (String × VariableValue) :=
  ((es.filter (fun p => (natKey p.1).isSome)).foldr insertIdx [])
    ++ es.filter (fun p => (natKey p.1).isNone)

/-- The `WorldState` of `WorldState.js`: a JavaScript object whose own
enumerable properties are the bound variable ids. -/
structure WorldState where
  entries : List (String × VariableValue)
deriving DecidableEq

/-- The sequence `Object.values(this)` of a `WorldState`. -/
def WorldState.values (s : WorldState) : List VariableValue :=
  (jsPropOrder s.entries).map (fun p => p.2)

/-- The getter `WorldState.id` (WorldState.js lines 18-20): brace-wrapped comma-join of
the property-ordered value ids. -/
def WorldState.id (s : WorldState) : String :=
  "\x7b" ++ String.intercalate "," (s.values.map VariableValue.idStr) ++ "\x7d"

/-- The method `WorldState.toGraphQL` (WorldState.js lines 22-24): the property-ordered
value list (the per-value wire conversion keeps `variableId` and `value`). -/
def WorldState.toGraphQL (s : WorldState) : List VariableValue :=
  s.values

/-- The constructor argument of `WorldState.js`: `variables` plus the two
optional binding sources.  `Option.none` models an absent (or `null`, hence
falsy) field; a present array — empty included — is truthy in JavaScript.
GraphQL list coercion always supplies arrays here, so the constructor's
`!Array.isArray(bs)` branch (which iterates `Object.values` of an
object-shaped argument) is not exercised and is not modelled. -/
structure WorldStateInput where
  varTable : List Variable
  conditions : Option (List VariableValueInput)
  variableValues : Option (List VariableValueInput)

/-- The constructor loop of `WorldState.js` lines 13-15:
`for (const b of bs) this[b.variableId] = new VariableValue({...b, variables})`. -/
def buildEntries (varTable : List Variable) :
    List VariableValueInput → List (String × VariableValue) →
    Except GoapError (List (String × VariableValue))
  | [], es => .ok es
  | b :: bs, es =>
    match VariableValue.build varTable b with
    | .error e => .error e
    | .ok v => buildEntries varTable bs (jsAssign es b.variableId v)

/-- The selection `const bs = input.conditions || input.variableValues || []`
(WorldState.js line 7): a present — hence truthy — `conditions` array wins,
otherwise a present `variableValues` array, otherwise the empty list. -/
def wsBindings (i : WorldStateInput) : List VariableValueInput :=
  match i.conditions with
  | some cs => cs
  | none =>
    match i.variableValues with
    | some vs => vs
    | none => []

/-- The `WorldState` constructor (WorldState.js lines 5-16): select the
binding source, then run the assignment loop. -/
def mkWorldState (input : WorldStateInput) : Except GoapError WorldState :=
  match buildEntries input.varTable (wsBindings input) [] with
  | .error e => .error e
  | .ok es => .ok ⟨es⟩

/-- Lexicographic code-point comparison of strings (the spec's "lexicographic"
ordering, §3), written out over the character lists. -/
def strLtB : List Char → List Char → Bool
  | [], [] => false
  | [], _ :: _ => true
  | _ :: _, [] => false
  | c :: cs, d :: ds =>
    if c.toNat < d.toNat then true
    else if d.toNat < c.toNat then false
    else strLtB cs ds

def strLt (a b : String) : Bool := strLtB a.data b.data

def strLe (a b : String) : Bool := !(strLt b a)

/-- Canonical (sorted-by-variable-id) entry list of a world-state (§4.3). -/
def insertByKey (p : String × VariableValue) :
    List (String × VariableValue) → List (String × VariableValue)
  | [] => [p]
  | q :: qs => if strLe p.1 q.1 then p :: q :: qs else q :: insertByKey p qs

def sortByKey (es : List (String × VariableValue)) : List (String × VariableValue) :=
  es.foldr insertByKey []

def canonicalEntries (s : WorldState) : List (String × VariableValue) :=
  sortByKey s.entries

/-- Field-wise agreement of two entry sequences. -/
def entriesAgree : List (String × VariableValue) → List (String × VariableValue) → Bool
  | [], [] => true
  | p :: ps, q :: qs =>
    p.1 == q.1 && p.2.variableId == q.2.variableId && p.2.value == q.2.value
      && entriesAgree ps qs
  | _, _ => false

/-- Modelled from the spec: `equal(a,b)` of §4.3 — "holds iff canonical forms
agree field-wise"; no equality operation exists in the repository sources. -/
def equalStates (s1 s2 : WorldState) : Bool :=
  entriesAgree (canonicalEntries s1) (canonicalEntries s2)

/-- Modelled from the spec: a `VariableOrValue` argument (§3), normalized to
literal-or-reference form as §9 prescribes; absent from the repository
sources. -/
inductive VarOrValue where
  | lit (v : Value)
  | ref (variableId : String)
deriving DecidableEq

/-- Modelled from the spec: a condition `{variableId, comparisonOperator,
argument}` (§3); absent from the repository sources. -/
structure Condition where
  variableId : String
  comparisonOperator : String
  argument : VarOrValue
deriving DecidableEq

/-- Modelled from the spec: an effect `{variableId, assignmentOperator,
argument}` (§3); absent from the repository sources. -/
structure Effect where
  variableId : String
  assignmentOperator : String
  argument : VarOrValue
deriving DecidableEq

/-- Modelled from the spec: a transition (§3); `description` is omitted as no
operation reads it.  Cost is modelled as ℚ. -/
structure Transition where
  id : String
  conditions : List Condition
  action : Option String
  effects : List Effect
  cost : ℚ
deriving DecidableEq

def cmpInt (a b : Int) : Ordering :=
  if a < b then .lt else if b < a then .gt else .eq

def cmpQ (a b : ℚ) : Ordering :=
  if a < b then .lt else if b < a then .gt else .eq

def cmpStr (a b : String) : Ordering :=
  if strLt a b then .lt else if strLt b a then .gt else .eq

/-- Modelled from the spec: typed `compare` (§4.2) — defined for INT, FLOAT
(numeric) and STRING (lexicographic); BOOLEAN has no ordering. -/
def compareValues : Value → Value → Option Ordering
  | .int a, .int b => some (cmpInt a b)
  | .float a, .float b => some (cmpQ a b)
  | .str a, .str b => some (cmpStr a b)
  | _, _ => none

/-- Modelled from the spec: the comparison-operator table of §4.1, dispatched
by (operator-id, type); unregistered pairs fail with `UnsupportedOperator`,
and operand tags must agree (`TypeMismatch`, §4.4 step 3). -/
def evalCompare (op : String) (a b : Value) : Except GoapError Bool :=
  if a.tag ≠ b.tag then .error .typeMismatch
  else match op with
  | "EQ" => .ok (a == b)
  | "NE" => .ok (!(a == b))
  | "LT" =>
    match compareValues a b with
    | some o => .ok (o == .lt)
    | none => .error .unsupportedOperator
  | "LE" =>
    match compareValues a b with
    | some o => .ok (!(o == .gt))
    | none => .error .unsupportedOperator
  | "GT" =>
    match compareValues a b with
    | some o => .ok (o == .gt)
    | none => .error .unsupportedOperator
  | "GE" =>
    match compareValues a b with
    | some o => .ok (!(o == .lt))
    | none => .error .unsupportedOperator
  | "AND" =>
    match a, b with
    | .bool x, .bool y => .ok (x && y)
    | _, _ => .error .unsupportedOperator
  | "OR" =>
    match a, b with
    | .bool x, .bool y => .ok (x || y)
    | _, _ => .error .unsupportedOperator
  | _ => .error .unsupportedOperator

/-- Modelled from the spec: the assignment-operator table of §4.1.  `DIV` by
zero fails with `ArithmeticError`. -/
def applyOp (op : String) (lhs rhs : Value) : Except GoapError Value :=
  if lhs.tag ≠ rhs.tag then .error .typeMismatch
  else match op with
  | "SET" => .ok rhs
  | "ADD" =>
    match lhs, rhs with
    | .int a, .int b => .ok (.int (a + b))
    | .float a, .float b => .ok (.float (a + b))
    | _, _ => .error .unsupportedOperator
  | "SUB" =>
    match lhs, rhs with
    | .int a, .int b => .ok (.int (a - b))
    | .float a, .float b => .ok (.float (a - b))
    | _, _ => .error .unsupportedOperator
  | "MUL" =>
    match lhs, rhs with
    | .int a, .int b => .ok (.int (a * b))
    | .float a, .float b => .ok (.float (a * b))
    | _, _ => .error .unsupportedOperator
  | "DIV" =>
    match lhs, rhs with
    | .int a, .int b => if b = 0 then .error .arithmeticError else .ok (.int (a / b))
    | .float a, .float b => if b = 0 then .error .arithmeticError else .ok (.float (a / b))
    | _, _ => .error .unsupportedOperator
  | "AND" =>
    match lhs, rhs with
    | .bool x, .bool y => .ok (.bool (x && y))
    | _, _ => .error .unsupportedOperator
  | "OR" =>
    match lhs, rhs with
    | .bool x, .bool y => .ok (.bool (x || y))
    | _, _ => .error .unsupportedOperator
  | "XOR" =>
    match lhs, rhs with
    | .bool x, .bool y => .ok (.bool (xor x y))
    | _, _ => .error .unsupportedOperator
  | "CONCAT" =>
    match lhs, rhs with
    | .str x, .str y => .ok (.str (x ++ y))
    | _, _ => .error .unsupportedOperator
  | _ => .error .unsupportedOperator

/-- The lookup `state.get(variableId)` over the embedded world-state. -/
def WorldState.get (s : WorldState) (vid : String) : Option Value :=
  (s.entries.find? (fun p => p.1 == vid)).map (fun p => p.2.value)

def getE (s : WorldState) (vid : String) : Except GoapError Value :=
  match s.get vid with
  | some v => .ok v
  | none => .error .schemaError

/-- Modelled from the spec: `with(variableId, newValue)` (§4.3) returns a new
state; over the JavaScript object this is property assignment. -/
def WorldState.withVal (s : WorldState) (vid : String) (v : Value) : WorldState :=
  ⟨jsAssign s.entries vid ⟨vid, v⟩⟩

/-- Modelled from the spec: argument resolution (§4.4) — a reference reads the
current state, a literal is itself. -/
def resolveOperand (s : WorldState) : VarOrValue → Except GoapError Value
  | .lit v => .ok v
  | .ref vid => getE s vid

/-- Modelled from the spec: `evalCondition(c, state)` (§4.4). -/
def evalCondition (c : Condition) (s : WorldState) : Except GoapError Bool :=
  match getE s c.variableId with
  | .error e => .error e
  | .ok lhs =>
    match resolveOperand s c.argument with
    | .error e => .error e
    | .ok rhs => evalCompare c.comparisonOperator lhs rhs

/-- Modelled from the spec: short-circuit conjunction of `evalCondition` over a
condition list (§4.4); the empty list is trivially satisfied. -/
def allConditions (cs : List Condition) (s : WorldState) : Except GoapError Bool :=
  match cs with
  | [] => .ok true
  | c :: rest =>
    match evalCondition c s with
    | .error e => .error e
    | .ok b => if b then allConditions rest s else .ok false

/-- Modelled from the spec: `isEnabled(t, state)` (§4.4). -/
def isEnabled (t : Transition) (s : WorldState) : Except GoapError Bool :=
  allConditions t.conditions s

/-- Modelled from the spec: `goalsSatisfied(goals, state)` (§4.4). -/
def goalsSatisfied (goals : List Condition) (s : WorldState) : Except GoapError Bool :=
  allConditions goals s

/-- Modelled from the spec: one effect application (§4.4 firing step 2): the
left-hand side and a reference argument are both read from the working copy. -/
def applyEffect (s : WorldState) (e : Effect) : Except GoapError WorldState :=
  match getE s e.variableId with
  | .error err => .error err
  | .ok lhs =>
    match resolveOperand s e.argument with
    | .error err => .error err
    | .ok rhs =>
      match applyOp e.assignmentOperator lhs rhs with
      | .error err => .error err
      | .ok v => .ok (s.withVal e.variableId v)

/-- Modelled from the spec: apply an effect list in list order, threading the
working copy (§4.4). -/
def applyEffects : List Effect → WorldState → Except GoapError WorldState
  | [], s => .ok s
  | e :: rest, s =>
    match applyEffect s e with
    | .error err => .error err
    | .ok s' => applyEffects rest s'

/-- Modelled from the spec: `fire(t, state)` (§4.4); the planner only calls it
on enabled transitions. -/
def fire (t : Transition) (s : WorldState) : Except GoapError WorldState :=
  applyEffects t.effects s

/-- Weight of a condition's variable, defaulting to 1 (§4.5 heuristic). -/
def condWeight (varTable : List Variable) (vid : String) : ℚ :=
  match varTable.find? (fun v => v.id == vid) with
  | some v => v.weight
  | none => 1

/-- Modelled from the spec: the admissible indicator heuristic (§4.5) — the sum
over unsatisfied goal conditions of the variable's weight; a condition whose
evaluation fails counts as unsatisfied.  The planner is absent from the
repository sources. -/
def heuristic (varTable : List Variable) (goals : List Condition) (s : WorldState) : ℚ :=
  (goals.map (fun c =>
    match evalCondition c s with
    | .ok true => 0
    | _ => condWeight varTable c.variableId)).sum

/-- An open-set entry: a reached state, its accumulated cost `g`, the fired
transition path from the start, and an insertion counter for tie-breaking. -/
structure Entry where
  state : WorldState
  g : ℚ
  path : List Transition
  order : Nat
deriving DecidableEq

def fScore (varTable : List Variable) (goals : List Condition) (e : Entry) : ℚ :=
  e.g + heuristic varTable goals e.state

/-- Strict priority of `a` over `b` in the open set (§4.5): lower `f`, then
higher `g` (deeper states first), then earlier insertion. -/
def prefEntry (varTable : List Variable) (goals : List Condition) (a b : Entry) : Bool :=
  if fScore varTable goals a < fScore varTable goals b then true
  else if fScore varTable goals b < fScore varTable goals a then false
  else if b.g < a.g then true
  else if a.g < b.g then false
  else a.order < b.order

/-- Remove the highest-priority entry from the open set. -/
def selectMin (varTable : List Variable) (goals : List Condition) :
    List Entry → Option (Entry × List Entry)
  | [] => none
  | [e] => some (e, [])
  | e :: rest =>
    match selectMin varTable goals rest with
    | none => some (e, rest)
    | some (b, others) =>
      if prefEntry varTable goals b e then some (b, e :: others) else some (e, rest)

def lookupG (m : List (String × ℚ)) (k : String) : Option ℚ :=
  (m.find? (fun p => p.1 == k)).map (fun p => p.2)

def setG (m : List (String × ℚ)) (k : String) (g : ℚ) : List (String × ℚ) :=
  match m with
  | [] => [(k, g)]
  | p :: ps => if p.1 == k then (k, g) :: ps else p :: setG ps k g

/-- Modelled from the spec: the planner's edge relation (§4.5) — for each
transition enabled in `s` whose firing succeeds, an edge to the fired state.
A firing that fails (`ArithmeticError`, §7) contributes no edge: the
transition is treated as not applicable and the search continues. -/
def successors (ts : List Transition) (s : WorldState) :
    List (Transition × WorldState) :=
  ts.filterMap (fun t =>
    match isEnabled t s with
    | .ok true =>
      match fire t s with
      | .ok s' => some (t, s')
      | .error _ => none
    | _ => none)

/-- Enqueue the successor edges of a dequeued entry, refusing to re-enqueue a
state unless the new `g` strictly improves the recorded best (§4.5). -/
def pushSuccessors (e : Entry) :
    List (Transition × WorldState) → List Entry → List (String × ℚ) → Nat →
    List Entry × List (String × ℚ) × Nat
  | [], open_, bestG, ctr => (open_, bestG, ctr)
  | (t, s') :: rest, open_, bestG, ctr =>
    let g' := e.g + t.cost
    match lookupG bestG s'.id with
    | some b =>
      if b ≤ g' then pushSuccessors e rest open_ bestG ctr
      else
        pushSuccessors e rest (open_ ++ [⟨s', g', e.path ++ [t], ctr⟩])
          (setG bestG s'.id g') (ctr + 1)
    | none =>
      pushSuccessors e rest (open_ ++ [⟨s', g', e.path ++ [t], ctr⟩])
        (setG bestG s'.id g') (ctr + 1)

/-- Outcome of one search step. -/
inductive StepRes where
  | unreachable : StepRes
  | found : List Transition → ℚ → WorldState → StepRes
  | next : List Entry → List (String × ℚ) → Nat → StepRes

/-- Modelled from the spec: one A* expansion (§4.5): dequeue the minimum-`f`
entry; skip it if its recorded `g` beats the entry's (lazy deletion); report
success when the goal test holds; otherwise enqueue successor edges. -/
def aStarStep (varTable : List Variable) (goals : List Condition)
    (ts : List Transition) (open_ : List Entry) (bestG : List (String × ℚ))
    (ctr : Nat) : StepRes :=
  match selectMin varTable goals open_ with
  | none => .unreachable
  | some (e, rest) =>
    if (lookupG bestG e.state.id).getD e.g < e.g then .next rest bestG ctr
    else match goalsSatisfied goals e.state with
    | .ok true => .found e.path e.g e.state
    | _ =>
      let r := pushSuccessors e (successors ts e.state) rest bestG ctr
      .next r.1 r.2.1 r.2.2

inductive PlanStatus where
  | FOUND
  | UNREACHABLE
  | ABORTED
deriving DecidableEq

/-- The planner's raw result: status, the fired transition path, the goal
node's `g`, and the final state. -/
structure PlanCore where
  status : PlanStatus
  path : List Transition
  totalCost : ℚ
  finalState : WorldState
deriving DecidableEq

/-- Modelled from the spec: the bounded A* loop (§4.5); exhausting the
expansion bound yields `ABORTED`, an empty open set yields `UNREACHABLE` with
`finalState = initialState` and `totalCost = 0`. -/
def aStarLoop (varTable : List Variable) (goals : List Condition)
    (ts : List Transition) (s0 : WorldState) :
    Nat → List Entry → List (String × ℚ) → Nat → PlanCore
  | 0, _, _, _ => ⟨.ABORTED, [], 0, s0⟩
  | fuel + 1, open_, bestG, ctr =>
    match aStarStep varTable goals ts open_ bestG ctr with
    | .unreachable => ⟨.UNREACHABLE, [], 0, s0⟩
    | .found path g st => ⟨.FOUND, path, g, st⟩
    | .next o b c => aStarLoop varTable goals ts s0 fuel o b c

/-- The `ActionPlan` record (§3); the schema's opaque `id` field is not
modelled.  Statuses are the string literals of §6, modelled as an inductive. -/
structure ActionPlan where
  actions : List String
  transitions : List String
  totalSteps : Nat
  totalCost : ℚ
  initialState : List VariableValue
  finalState : List VariableValue
  status : PlanStatus
deriving DecidableEq

/-- Modelled from the spec: plan reconstruction (§4.5) — `actions` is the
sub-list of fired transitions whose `action` field is set, in order;
`transitions` lists every fired transition; states are serialized through
`WorldState.toGraphQL`. -/
def mkPlanFromCore (s0 : WorldState) (core : PlanCore) : ActionPlan :=
  ⟨core.path.filterMap (fun t => t.action),
   core.path.map (fun t => t.id),
   core.path.length,
   core.totalCost,
   s0.toGraphQL,
   core.finalState.toGraphQL,
   core.status⟩

/-- Modelled from the spec: `generateActionPlan` (§4.6, §4.5) with the default
expansion bound of 100000; the resolver is absent from the repository sources.
The initial state is built through the `WorldState` constructor of
`WorldState.js`. -/
def generateActionPlanCore (varTable : List Variable) (ts : List Transition)
    (initial : List VariableValueInput) (goal : List Condition) :
    Except GoapError (WorldState × PlanCore) :=
  match mkWorldState ⟨varTable, none, some initial⟩ with
  | .error e => .error e
  | .ok s0 =>
    .ok (s0, aStarLoop varTable goal ts s0 100000 [⟨s0, 0, [], 0⟩] [(s0.id, 0)] 1)

def generateActionPlan (varTable : List Variable) (ts : List Transition)
    (initial : List VariableValueInput) (goal : List Condition) :
    Except GoapError ActionPlan :=
  match generateActionPlanCore varTable ts initial goal with
  | .error e => .error e
  | .ok p => .ok (mkPlanFromCore p.1 p.2)

/-- Modelled from the spec: the `singleStep` resolver (§4.6) — "build state; if
not enabled return null; else return the fired state's values (all variables,
canonical order)"; the resolver is absent from the repository sources. -/
def singleStep (varTable : List Variable) (state : List VariableValueInput)
    (t : Transition) : Except GoapError (Option (List VariableValue)) :=
  match mkWorldState ⟨varTable, none, some state⟩ with
  | .error e => .error e
  | .ok s =>
    match isEnabled t s with
    | .error e => .error e
    | .ok false => .ok none
    | .ok true =>
      match fire t s with
      | .error e => .error e
      | .ok s' => .ok (some ((sortByKey s'.entries).map (fun p => p.2)))

/-- Keys of an entry list, in storage order. -/
def keysOf (es : List (String × VariableValue)) : List String :=
  es.map (fun p => p.1)

/-- First-occurrence deduplication, mirroring which keys a JavaScript object
ends up with (first occurrence fixes the position, later ones overwrite). -/
def dedupKeepFirst (l : List String) : List String :=
  l.foldl (fun acc k => if k ∈ acc then acc else acc ++ [k]) []

/-- Does a constructor result carry the `DuplicateAssignment` error? -/
def isDupErr {α : Type} : Except GoapError α → Bool
  | .error .duplicateAssignment => true
  | _ => false

/-- Concrete fixtures used by witnesses and counterexamples. -/
def exVarsXY : List Variable := [⟨"x", .INT, 1⟩, ⟨"y", .INT, 1⟩]

def exVarsAB : List Variable := [⟨"a", .INT, 1⟩, ⟨"b", .INT, 1⟩]

def exVarsABC : List Variable := [⟨"a", .INT, 1⟩, ⟨"b", .INT, 1⟩, ⟨"c", .INT, 1⟩]

def exInX (n : Int) : VariableValueInput := ⟨"x", none, some n, none, none⟩

def exInA (n : Int) : VariableValueInput := ⟨"a", none, some n, none, none⟩

def exInB (n : Int) : VariableValueInput := ⟨"b", none, some n, none, none⟩

def exWorldAB : WorldState := ⟨[("a", ⟨"a", .int 1⟩), ("b", ⟨"b", .int 2⟩)]⟩

def exWorldBA : WorldState := ⟨[("b", ⟨"b", .int 2⟩), ("a", ⟨"a", .int 1⟩)]⟩

def exWorldX5 : WorldState := ⟨[("x", ⟨"x", .int 5⟩)]⟩

def exWorldX0 : WorldState := ⟨[("x", ⟨"x", .int 0⟩)]⟩

def exWorldX4 : WorldState := ⟨[("x", ⟨"x", .int 4⟩)]⟩

/-- A transition whose single effect divides `x` by the literal zero. -/
def exDivZero : Transition := ⟨"tdiv", [], none, [⟨"x", "DIV", .lit (.int 0)⟩], 1⟩

/-- Invariant carried by every state the planner reaches: the property-table
keys are exactly `ks` (in order), and every stored value's `variableId` equals
its key.  Effects can only update variables the state already binds (an
unbound variable fails the firing), and `jsAssign` on an existing key
overwrites in place, so firing preserves this invariant. -/
def stateKeysInv (ks : List String) (s : WorldState) : Prop :=
  keysOf s.entries = ks
  ∧ ∀ p ∈ s.entries, (p : String × VariableValue).2.variableId = p.1

end Goap

deriving instance DecidableEq for Except

namespace Goap

/-- C10: when `input.conditions` is present (truthy — an empty array included)
the constructor takes its bindings from it and ignores `input.variableValues`
entirely; only when `conditions` is absent does it fall back to
`variableValues`; when both are absent it builds the empty state, whose `id`
is "\x7b\x7d" and whose `toGraphQL()` is the empty list. -/
theorem C10_conditions_priority :
    ∀ (vt : List Variable) (cs vvs : List VariableValueInput),
      mkWorldState ⟨vt, some cs, some vvs⟩ = mkWorldState ⟨vt, some cs, none⟩
      ∧ mkWorldState ⟨vt, none, some vvs⟩ = mkWorldState ⟨vt, some vvs, none⟩
      ∧ mkWorldState ⟨vt, none, none⟩ = .ok ⟨[]⟩
      ∧ WorldState.id ⟨[]⟩ = "\x7b\x7d"
      ∧ WorldState.toGraphQL ⟨[]⟩ = [] := by
  intro vt cs vvs
  exact ⟨rfl, rfl, rfl, rfl, rfl⟩

theorem isDupErr_error {α : Type} (e : GoapError) (h : e ≠ .duplicateAssignment) :
    isDupErr (Except.error e : Except GoapError α) = false := by
  cases e <;> first | rfl | exact absurd rfl h

theorem parseValue_error_kind (b : VariableValueInput) (e : GoapError)
    (h : parseValue b = .error e) : e = .malformedValue := by
  unfold parseValue at h
  split at h <;> simp_all

theorem variableValue_build_error_kind (vt : List Variable) (b : VariableValueInput)
    (e : GoapError) (h : VariableValue.build vt b = .error e) :
    e ≠ .duplicateAssignment := by
  unfold VariableValue.build at h
  split at h
  · simp only [Except.error.injEq] at h
    subst h
    simp
  · split at h
    · rename_i heq
      simp only [Except.error.injEq] at h
      subst h
      rw [parseValue_error_kind b _ heq]
      simp
    · split at h
      · simp_all
      · simp only [Except.error.injEq] at h
        subst h
        simp

theorem buildEntries_error_kind (vt : List Variable) :
    ∀ (bs : List VariableValueInput) (es : List (String × VariableValue))
      (e : GoapError), buildEntries vt bs es = .error e →
      e ≠ .duplicateAssignment := by
  intro bs
  induction bs with
  | nil => intro es e h; simp [buildEntries] at h
  | cons b bs ih =>
    intro es e h
    simp only [buildEntries] at h
    cases hv : VariableValue.build vt b with
    | error e' =>
      rw [hv] at h
      simp only [Except.error.injEq] at h
      subst h
      exact variableValue_build_error_kind vt b _ hv
    | ok v =>
      rw [hv] at h
      exact ih (jsAssign es b.variableId v) e h

/-- C3 (amended): the constructor never fails with `DuplicateAssignment` — for
every input it either succeeds (later duplicate bindings silently overwrite
the earlier value in place) or fails with one of the other error kinds. -/
theorem C3_no_duplicate_check :
    ∀ (i : WorldStateInput), isDupErr (mkWorldState i) = false := by
  intro i
  unfold mkWorldState
  cases hb : buildEntries i.varTable (wsBindings i) [] with
  | error e =>
    simp only [hb]
    exact isDupErr_error e (buildEntries_error_kind i.varTable (wsBindings i) [] e hb)
  | ok es => simp only [hb]; rfl

/-- C3 counterexample: two bindings for the variable `x` do not fail; the
constructor returns a `WorldState` in which the last binding won, and the
result is not a `DuplicateAssignment` query failure. -/
theorem C3_counterexample :
    mkWorldState ⟨exVarsXY, none, some [exInX 1, exInX 2]⟩
        = .ok ⟨[("x", ⟨"x", .int 2⟩)]⟩
    ∧ isDupErr (mkWorldState ⟨exVarsXY, none, some [exInX 1, exInX 2]⟩) = false := by
  exact ⟨by decide, by decide⟩

end Goap

namespace Goap

theorem keysOf_jsAssign (k : String) (v : VariableValue) :
    ∀ (es : List (String × VariableValue)),
      keysOf (jsAssign es k v)
        = if k ∈ keysOf es then keysOf es else keysOf es ++ [k] := by
  intro es
  induction es with
  | nil => simp [jsAssign, keysOf]
  | cons p ps ih =>
    by_cases h : p.1 = k
    · simp [jsAssign, keysOf, h]
    · have hb : (p.1 == k) = false := by simp [h]
      simp only [keysOf] at ih
      simp only [jsAssign, hb, Bool.false_eq_true, if_false, keysOf, List.map_cons]
      rw [ih]
      have hne : ¬ k = p.1 := fun hc => h hc.symm
      by_cases hm : k ∈ ps.map (fun p => p.1)
      · simp [List.mem_cons, hm, hne]
      · simp [List.mem_cons, hm, hne]

theorem buildEntries_keys (vt : List Variable) :
    ∀ (bs : List VariableValueInput) (es es' : List (String × VariableValue)),
      buildEntries vt bs es = .ok es' →
      keysOf es' = bs.foldl
        (fun acc b => if b.variableId ∈ acc then acc else acc ++ [b.variableId])
        (keysOf es) := by
  intro bs
  induction bs with
  | nil =>
    intro es es' h
    simp only [buildEntries, Except.ok.injEq] at h
    subst h
    rfl
  | cons b bs ih =>
    intro es es' h
    simp only [buildEntries] at h
    cases hv : VariableValue.build vt b with
    | error e => rw [hv] at h; exact absurd h (by simp)
    | ok v =>
      rw [hv] at h
      rw [List.foldl_cons, ← keysOf_jsAssign b.variableId v es]
      exact ih (jsAssign es b.variableId v) es' h

theorem mem_foldl_insert :
    ∀ (l acc : List String) (y : String),
      (y ∈ l.foldl (fun acc k => if k ∈ acc then acc else acc ++ [k]) acc)
        ↔ y ∈ acc ∨ y ∈ l := by
  intro l
  induction l with
  | nil => simp
  | cons k ks ih =>
    intro acc y
    simp only [List.foldl_cons]
    rw [ih]
    by_cases hk : k ∈ acc
    · simp only [hk, if_true, List.mem_cons]
      constructor
      · rintro (h | h)
        · exact Or.inl h
        · exact Or.inr (Or.inr h)
      · rintro (h | rfl | h)
        · exact Or.inl h
        · exact Or.inl hk
        · exact Or.inr h
    · simp only [hk, if_false]
      rw [List.mem_append]
      simp only [List.mem_cons, List.not_mem_nil, or_false]
      tauto

/-- C2 (amended): `build(variables, values)` maps exactly the variables named
in the value list — the keys are the first occurrences of the bound
variable-ids, in input order — and any variable absent from the value list is
absent from the state (no zero-value defaulting takes place). -/
theorem C2_missing_vars_absent (vt : List Variable) (bs : List VariableValueInput)
    (s : WorldState) (h : mkWorldState ⟨vt, none, some bs⟩ = .ok s) :
    keysOf s.entries = dedupKeepFirst (bs.map (fun b => b.variableId))
    ∧ ∀ y, y ∉ bs.map (fun b => b.variableId) → s.get y = none := by
  unfold mkWorldState at h
  cases hb : buildEntries vt (wsBindings ⟨vt, none, some bs⟩) [] with
  | error e => rw [hb] at h; exact absurd h (by simp)
  | ok es =>
    rw [hb] at h
    simp only [Except.ok.injEq] at h
    subst h
    have hbs : wsBindings ⟨vt, none, some bs⟩ = bs := rfl
    rw [hbs] at hb
    have hkeys : keysOf es = dedupKeepFirst (bs.map (fun b => b.variableId)) := by
      rw [buildEntries_keys vt bs [] es hb]
      unfold dedupKeepFirst
      rw [List.foldl_map]
      rfl
    refine ⟨hkeys, ?_⟩
    intro y hy
    unfold WorldState.get
    rw [List.find?_eq_none.mpr, Option.map_none']
    intro p hp
    have hpk : p.1 ∈ keysOf es := List.mem_map_of_mem (fun p => p.1) hp
    rw [hkeys] at hpk
    unfold dedupKeepFirst at hpk
    rw [mem_foldl_insert] at hpk
    rcases hpk with hpk | hpk
    · exact absurd hpk (List.not_mem_nil p.1)
    · intro hbeq
      rw [beq_iff_eq] at hbeq
      exact hy (hbeq ▸ hpk)

/-- C2 counterexample: with the table `[x : INT, y : INT]` and the single
binding `x = 5`, build succeeds but the variable `y` of the table is not
mapped at all — it is not defaulted to the INT zero value 0. -/
theorem C2_counterexample :
    mkWorldState ⟨exVarsXY, none, some [exInX 5]⟩ = .ok exWorldX5
    ∧ "y" ∈ exVarsXY.map (fun v => v.id)
    ∧ exWorldX5.get "y" = none := by
  exact ⟨by decide, by decide, by decide⟩

/-- Witness for C2 (amended) at the concrete one-binding input. -/
theorem C2_missing_vars_absent_witness :
    keysOf exWorldX5.entries = dedupKeepFirst ([exInX 5].map (fun b => b.variableId))
    ∧ ∀ y, y ∉ [exInX 5].map (fun b => b.variableId) → exWorldX5.get y = none :=
  C2_missing_vars_absent exVarsXY [exInX 5] exWorldX5 (by decide)

end Goap

namespace Goap

theorem entriesAgree_iff :
    ∀ (l1 l2 : List (String × VariableValue)),
      entriesAgree l1 l2 = true ↔ l1 = l2 := by
  intro l1
  induction l1 with
  | nil =>
    intro l2
    cases l2 <;> simp [entriesAgree]
  | cons p ps ih =>
    intro l2
    cases l2 with
    | nil => simp [entriesAgree]
    | cons q qs =>
      obtain ⟨k1, id1, v1⟩ := p
      obtain ⟨k2, id2, v2⟩ := q
      simp only [entriesAgree, Bool.and_eq_true, beq_iff_eq, ih, List.cons.injEq,
        Prod.mk.injEq, VariableValue.mk.injEq]
      tauto

/-- C1 (amended): `equal(s1,s2)` holds iff the canonical (sorted-by-variable-id)
entry sequences agree field-wise; but the code's identity is computed from the
JavaScript property-ordered value sequence, not from the canonical form, so
identity agreement is only guaranteed when the ordered per-value id sequences
agree — states holding the same bindings in different insertion orders may
have different identities. -/
theorem C1_identity_of_ordered_values (s1 s2 : WorldState) :
    (equalStates s1 s2 = true ↔ canonicalEntries s1 = canonicalEntries s2)
    ∧ (s1.values.map VariableValue.idStr = s2.values.map VariableValue.idStr →
        s1.id = s2.id) := by
  constructor
  · exact entriesAgree_iff (canonicalEntries s1) (canonicalEntries s2)
  · intro h
    unfold WorldState.id
    rw [h]

/-- C1 counterexample: the same two bindings supplied in the two possible
orders build world-states that are `equal` (identical canonical forms) yet
have different identities — the code's `id` joins the values in insertion
order, not in sorted order. -/
theorem C1_counterexample :
    mkWorldState ⟨exVarsAB, none, some [exInA 1, exInB 2]⟩ = .ok exWorldAB
    ∧ mkWorldState ⟨exVarsAB, none, some [exInB 2, exInA 1]⟩ = .ok exWorldBA
    ∧ equalStates exWorldAB exWorldBA = true
    ∧ exWorldAB.id ≠ exWorldBA.id := by
  exact ⟨by decide, by decide, by decide, by decide⟩

/-- Witness for C1 (amended) at a concrete state. -/
theorem C1_identity_witness :
    equalStates exWorldAB exWorldAB = true ∧ exWorldAB.id = exWorldAB.id :=
  ⟨(C1_identity_of_ordered_values exWorldAB exWorldAB).1.mpr rfl,
   (C1_identity_of_ordered_values exWorldAB exWorldAB).2 rfl⟩

end Goap

namespace Goap

theorem map_eq_of_forall {α β : Type} (f g : α → β) :
    ∀ (l : List α), (∀ a ∈ l, f a = g a) → l.map f = l.map g := by
  intro l
  induction l with
  | nil => intro _; rfl
  | cons a as ih =>
    intro h
    simp only [List.map_cons]
    rw [h a (List.mem_cons_self a as), ih (fun x hx => h x (List.mem_cons_of_mem a hx))]

theorem variableValue_build_vid (vt : List Variable) (b : VariableValueInput)
    (v : VariableValue) (h : VariableValue.build vt b = .ok v) :
    v.variableId = b.variableId := by
  unfold VariableValue.build at h
  split at h
  · simp at h
  · split at h
    · simp at h
    · split at h
      · simp only [Except.ok.injEq] at h
        subst h
        rfl
      · simp at h

theorem jsAssign_vid (k : String) (v : VariableValue) (hv : v.variableId = k) :
    ∀ (es : List (String × VariableValue)),
      (∀ p ∈ es, (p : String × VariableValue).2.variableId = p.1) →
      ∀ p ∈ jsAssign es k v, p.2.variableId = p.1 := by
  intro es
  induction es with
  | nil =>
    intro _ p hp
    simp only [jsAssign, List.mem_singleton] at hp
    subst hp
    exact hv
  | cons q qs ih =>
    intro hall p hp
    simp only [jsAssign] at hp
    by_cases hq : (q.1 == k) = true
    · rw [if_pos hq] at hp
      rcases List.mem_cons.mp hp with hp | hp
      · subst hp; exact hv
      · exact hall p (List.mem_cons_of_mem q hp)
    · rw [if_neg hq] at hp
      rcases List.mem_cons.mp hp with hp | hp
      · subst hp; exact hall p (List.mem_cons_self p qs)
      · exact ih (fun x hx => hall x (List.mem_cons_of_mem q hx)) p hp

theorem buildEntries_vid (vt : List Variable) :
    ∀ (bs : List VariableValueInput) (es es' : List (String × VariableValue)),
      buildEntries vt bs es = .ok es' →
      (∀ p ∈ es, (p : String × VariableValue).2.variableId = p.1) →
      ∀ p ∈ es', p.2.variableId = p.1 := by
  intro bs
  induction bs with
  | nil =>
    intro es es' h hall
    simp only [buildEntries, Except.ok.injEq] at h
    subst h
    exact hall
  | cons b bs ih =>
    intro es es' h hall
    simp only [buildEntries] at h
    cases hv : VariableValue.build vt b with
    | error e => rw [hv] at h; exact absurd h (by simp)
    | ok v =>
      rw [hv] at h
      exact ih (jsAssign es b.variableId v) es' h
        (jsAssign_vid b.variableId v (variableValue_build_vid vt b v hv) es hall)

theorem jsPropOrder_no_natKeys (es : List (String × VariableValue))
    (h : ∀ p ∈ es, natKey (p : String × VariableValue).1 = none) :
    jsPropOrder es = es := by
  unfold jsPropOrder
  have h1 : es.filter (fun p => (natKey p.1).isSome) = [] := by
    rw [List.filter_eq_nil_iff]
    intro p hp
    simp [h p hp]
  have h2 : es.filter (fun p => (natKey p.1).isNone) = es := by
    rw [List.filter_eq_self]
    intro p hp
    simp [h p hp]
  rw [h1, h2]
  rfl

theorem foldl_insert_of_disjoint :
    ∀ (l acc : List String), l.Nodup → (∀ x ∈ l, x ∉ acc) →
      l.foldl (fun acc k => if k ∈ acc then acc else acc ++ [k]) acc = acc ++ l := by
  intro l
  induction l with
  | nil => intro acc _ _; simp
  | cons k ks ih =>
    intro acc hnd hdisj
    simp only [List.foldl_cons]
    rw [if_neg (hdisj k (List.mem_cons_self k ks))]
    rw [ih (acc ++ [k]) (List.Nodup.of_cons hnd) ?_]
    · simp
    · intro x hx hmem
      rcases List.mem_append.mp hmem with hmem | hmem
      · exact hdisj x (List.mem_cons_of_mem k hx) hmem
      · rw [List.mem_singleton] at hmem
        subst hmem
        exact (List.nodup_cons.mp hnd).1 hx

theorem dedupKeepFirst_of_nodup (l : List String) (h : l.Nodup) :
    dedupKeepFirst l = l := by
  unfold dedupKeepFirst
  rw [foldl_insert_of_disjoint l [] h (fun x _ => List.not_mem_nil x)]
  rfl

/-- C4 counterexample: over the model `{a, b, c}` with initial bindings given
in the order `b, a`, the produced plan lists `initialState` in that insertion
order (`b` before `a`) and omits the unbound variable `c` — not the canonical
sorted listing of all model variables. -/
theorem C4_counterexample :
    generateActionPlan exVarsABC [] [exInB 2, exInA 1] []
      = .ok ⟨[], [], 0, 0, [⟨"b", .int 2⟩, ⟨"a", .int 1⟩],
             [⟨"b", .int 2⟩, ⟨"a", .int 1⟩], .FOUND⟩
    ∧ ([⟨"b", .int 2⟩, ⟨"a", .int 1⟩] : List VariableValue).map
        (fun v => v.variableId) ≠ ["a", "b", "c"] := by
  exact ⟨by decide, by decide⟩


end Goap

namespace Goap

/-- C5: evaluating `singleStep` (modelled from the spec and its docstring) at a
state where the transition is not enabled yields the documented null result.
The schema declaration at `src/unnamed/part_000` line 193 types the field as
`[VariableValue!]!` — non-nullable — so a conforming GraphQL response cannot
carry this documented null: the declaration contradicts the docstring on the
line above it. -/
theorem C5_singleStep_null :
    singleStep exVarsXY [exInX 0]
      ⟨"t1", [⟨"x", "EQ", .lit (.int 1)⟩], none, [], 1⟩ = .ok none := by
  decide

/-- C8: a `DIV` effect with a zero right-hand operand fails the effect
evaluation with `ArithmeticError` (for INT and FLOAT alike); a transition
whose firing fails contributes no edge to the planner's successor relation
(the edge is pruned); and the planner still returns an `ActionPlan` for any
model whose initial state builds — the arithmetic failure never aborts the
query. -/
theorem C8_div_zero_pruned :
    (∀ a : Int, applyOp "DIV" (.int a) (.int 0) = .error .arithmeticError)
    ∧ (∀ q : ℚ, applyOp "DIV" (.float q) (.float 0) = .error .arithmeticError)
    ∧ (∀ (ts : List Transition) (s : WorldState) (t : Transition) (s'' : WorldState),
        fire t s = .error .arithmeticError → (t, s'') ∉ successors ts s)
    ∧ (∀ (vt : List Variable) (ts : List Transition) (init : List VariableValueInput)
        (goal : List Condition) (s0 : WorldState),
        mkWorldState ⟨vt, none, some init⟩ = .ok s0 →
        ∃ plan, generateActionPlan vt ts init goal = .ok plan) := by
  refine ⟨fun a => rfl, fun q => ?_, ?_, ?_⟩
  · show applyOp "DIV" (.float q) (.float 0) = .error .arithmeticError
    rfl
  · intro ts s t s'' hf hmem
    unfold successors at hmem
    rcases List.mem_filterMap.mp hmem with ⟨t', ht'mem, ht'⟩
    cases hen : isEnabled t' s with
    | error e => rw [hen] at ht'; exact absurd ht' (by simp)
    | ok b =>
      cases b with
      | false => rw [hen] at ht'; exact absurd ht' (by simp)
      | true =>
        rw [hen] at ht'
        cases hf' : fire t' s with
        | error e => rw [hf'] at ht'; exact absurd ht' (by simp)
        | ok s3 =>
          rw [hf'] at ht'
          simp only [Option.some.injEq, Prod.mk.injEq] at ht'
          obtain ⟨hteq, hseq⟩ := ht'
          subst hteq
          rw [hf] at hf'
          exact absurd hf' (by simp)
  · intro vt ts init goal s0 h
    unfold generateActionPlan generateActionPlanCore
    rw [h]
    exact ⟨_, rfl⟩

/-- Witness for C8 at a concrete div-by-zero transition. -/
theorem C8_div_zero_pruned_witness :
    applyOp "DIV" (.int 4) (.int 0) = .error .arithmeticError
    ∧ (exDivZero, exWorldX4) ∉ successors [exDivZero] exWorldX4
    ∧ ∃ plan, generateActionPlan exVarsXY [exDivZero] [exInX 4] [] = .ok plan :=
  ⟨C8_div_zero_pruned.1 4,
   C8_div_zero_pruned.2.2.1 [exDivZero] exWorldX4 exDivZero exWorldX4 (by decide),
   C8_div_zero_pruned.2.2.2 exVarsXY [exDivZero] [exInX 4] [] exWorldX4 (by decide)⟩

end Goap

namespace Goap

theorem find?_jsAssign_same (k : String) (v : VariableValue) :
    ∀ (es : List (String × VariableValue)),
      (jsAssign es k v).find? (fun p => p.1 == k) = some (k, v) := by
  intro es
  induction es with
  | nil => simp [jsAssign, List.find?]
  | cons p ps ih =>
    cases hpk : (p.1 == k) with
    | true =>
      simp only [jsAssign, hpk, if_true]
      simp [List.find?]
    | false =>
      simp only [jsAssign, hpk, Bool.false_eq_true, if_false, List.find?]
      exact ih

theorem find?_jsAssign_ne (k k' : String) (hne : k ≠ k') (v : VariableValue) :
    ∀ (es : List (String × VariableValue)),
      (jsAssign es k v).find? (fun p => p.1 == k')
        = es.find? (fun p => p.1 == k') := by
  intro es
  have hkk' : (k == k') = false := by simp [hne]
  induction es with
  | nil => simp [jsAssign, List.find?, hkk']
  | cons p ps ih =>
    cases hpk : (p.1 == k) with
    | true =>
      have hp1 : p.1 = k := beq_iff_eq.mp hpk
      simp only [jsAssign, hpk, if_true]
      simp only [List.find?, hkk', hp1]
    | false =>
      simp only [jsAssign, hpk, Bool.false_eq_true, if_false, List.find?]
      cases hpk' : (p.1 == k') with
      | true => simp only [hpk']
      | false => simp only [hpk']; exact ih

theorem withVal_get_same (s : WorldState) (k : String) (v : Value) :
    (s.withVal k v).get k = some v := by
  unfold WorldState.withVal WorldState.get
  rw [show WorldState.entries ⟨jsAssign s.entries k ⟨k, v⟩⟩
        = jsAssign s.entries k ⟨k, v⟩ from rfl]
  rw [find?_jsAssign_same k ⟨k, v⟩ s.entries]
  rfl

theorem withVal_get_ne (s : WorldState) (k k' : String) (hne : k ≠ k') (v : Value) :
    (s.withVal k v).get k' = s.get k' := by
  unfold WorldState.withVal WorldState.get
  rw [show WorldState.entries ⟨jsAssign s.entries k ⟨k, v⟩⟩
        = jsAssign s.entries k ⟨k, v⟩ from rfl]
  rw [find?_jsAssign_ne k k' hne ⟨k, v⟩ s.entries]

theorem applyOp_SET (a b : Value) (h : a.tag = b.tag) :
    applyOp "SET" a b = .ok b := by
  unfold applyOp
  rw [if_neg (by simp [h])]
  rfl

/-- C9: effects are applied in list order against a working copy threaded
through the list — `applyEffects` over a concatenation is the monadic
composition of the two halves, so each later effect runs on the state produced
by the earlier ones; and in a two-effect transition whose second effect
references the first effect's variable, the reference resolves to the value
written by the first effect.  The input state is a value and is never
modified: successor states are built by `withVal`, which returns a new state. -/
theorem C9_fire_sequential :
    (∀ (l₁ l₂ : List Effect) (s : WorldState),
      applyEffects (l₁ ++ l₂) s
        = (applyEffects l₁ s).bind (fun s' => applyEffects l₂ s'))
    ∧ (∀ (s : WorldState) (x y tid : String) (act : Option String)
        (conds : List Condition) (c : ℚ) (v w u : Value),
        x ≠ y → s.get x = some w → s.get y = some u →
        w.tag = v.tag → u.tag = v.tag →
        ∃ s', fire ⟨tid, conds, act,
            [⟨x, "SET", .lit v⟩, ⟨y, "SET", .ref x⟩], c⟩ s = .ok s'
          ∧ s'.get y = some v ∧ s'.get x = some v) := by
  constructor
  · intro l₁
    induction l₁ with
    | nil => intro l₂ s; rfl
    | cons e l₁ ih =>
      intro l₂ s
      show applyEffects (e :: (l₁ ++ l₂)) s = _
      simp only [applyEffects]
      cases he : applyEffect s e with
      | error err => rfl
      | ok s1 => exact ih l₂ s1
  · intro s x y tid act conds c v w u hxy hx hy hwv huv
    have hgx : getE s x = .ok w := by unfold getE; rw [hx]
    have step1 : applyEffect s ⟨x, "SET", .lit v⟩ = .ok (s.withVal x v) := by
      unfold applyEffect
      rw [hgx]
      show (match applyOp "SET" w v with
        | .error err => Except.error err
        | .ok v' => Except.ok (s.withVal x v')) = _
      rw [applyOp_SET w v hwv]
    have hgy1 : getE (s.withVal x v) y = .ok u := by
      unfold getE
      rw [withVal_get_ne s x y hxy v, hy]
    have hgx1 : getE (s.withVal x v) x = .ok v := by
      unfold getE
      rw [withVal_get_same s x v]
    have step2 : applyEffect (s.withVal x v) ⟨y, "SET", .ref x⟩
        = .ok ((s.withVal x v).withVal y v) := by
      unfold applyEffect
      rw [hgy1]
      show (match resolveOperand (s.withVal x v) (.ref x) with
        | .error err => Except.error err
        | .ok rhs =>
          match applyOp "SET" u rhs with
          | .error err => Except.error err
          | .ok v' => Except.ok ((s.withVal x v).withVal y v')) = _
      rw [show resolveOperand (s.withVal x v) (.ref x)
            = getE (s.withVal x v) x from rfl]
      rw [hgx1]
      show (match applyOp "SET" u v with
        | .error err => Except.error err
        | .ok v' => Except.ok ((s.withVal x v).withVal y v')) = _
      rw [applyOp_SET u v huv]
    refine ⟨(s.withVal x v).withVal y v, ?_, ?_, ?_⟩
    · show applyEffects [⟨x, "SET", .lit v⟩, ⟨y, "SET", .ref x⟩] s = _
      simp only [applyEffects, step1, step2]
    · exact withVal_get_same (s.withVal x v) y v
    · rw [withVal_get_ne (s.withVal x v) y x (fun hc => hxy hc.symm) v]
      exact withVal_get_same s x v

/-- Witness for C9 at concrete lists and a concrete two-effect transition. -/
theorem C9_fire_sequential_witness :
    applyEffects ([] ++ []) exWorldAB
      = (applyEffects [] exWorldAB).bind (fun s' => applyEffects [] s')
    ∧ ∃ s', fire ⟨"t2", [], none,
        [⟨"a", "SET", .lit (.int 7)⟩, ⟨"b", "SET", .ref "a"⟩], 1⟩ exWorldAB = .ok s'
      ∧ s'.get "b" = some (.int 7) ∧ s'.get "a" = some (.int 7) :=
  ⟨C9_fire_sequential.1 [] [] exWorldAB,
   C9_fire_sequential.2 exWorldAB "a" "b" "t2" none [] 1 (.int 7) (.int 1) (.int 2)
     (by decide) (by decide) (by decide) (by decide) (by decide)⟩

end Goap

namespace Goap

theorem selectMin_mem (vt : List Variable) (goals : List Condition) :
    ∀ (l : List Entry) (e : Entry) (rest : List Entry),
      selectMin vt goals l = some (e, rest) →
      e ∈ l ∧ ∀ x ∈ rest, x ∈ l := by
  intro l
  induction l with
  | nil => intro e rest h; simp [selectMin] at h
  | cons a l ih =>
    intro e rest h
    cases l with
    | nil =>
      simp only [selectMin, Option.some.injEq, Prod.mk.injEq] at h
      obtain ⟨he, hr⟩ := h
      subst he
      subst hr
      exact ⟨List.mem_singleton_self a, fun x hx => absurd hx (List.not_mem_nil x)⟩
    | cons b l' =>
      rw [show selectMin vt goals (a :: b :: l')
            = (match selectMin vt goals (b :: l') with
              | none => some (a, b :: l')
              | some (c, others) =>
                if prefEntry vt goals c a then some (c, a :: others)
                else some (a, b :: l')) from rfl] at h
      cases hsm : selectMin vt goals (b :: l') with
      | none =>
        rw [hsm] at h
        simp only [Option.some.injEq, Prod.mk.injEq] at h
        obtain ⟨he, hr⟩ := h
        subst he
        subst hr
        exact ⟨List.mem_cons_self a (b :: l'),
               fun x hx => List.mem_cons_of_mem a hx⟩
      | some pr =>
        obtain ⟨c, others⟩ := pr
        rw [hsm] at h
        have hc := ih c others hsm
        by_cases hp : prefEntry vt goals c a = true
        · simp only [hp, if_true, Option.some.injEq, Prod.mk.injEq] at h
          obtain ⟨he, hr⟩ := h
          subst he
          subst hr
          refine ⟨List.mem_cons_of_mem a hc.1, fun x hx => ?_⟩
          rcases List.mem_cons.mp hx with hx | hx
          · subst hx; exact List.mem_cons_self x (b :: l')
          · exact List.mem_cons_of_mem a (hc.2 x hx)
        · have hpf : prefEntry vt goals c a = false := by
            revert hp
            cases prefEntry vt goals c a <;> simp
          simp only [hpf, Bool.false_eq_true, if_false, Option.some.injEq,
            Prod.mk.injEq] at h
          obtain ⟨he, hr⟩ := h
          subst he
          subst hr
          exact ⟨List.mem_cons_self a (b :: l'),
                 fun x hx => List.mem_cons_of_mem a hx⟩

end Goap

namespace Goap
theorem pushSuccessors_path_cost (e : Entry)
    (he : e.g = (e.path.map Transition.cost).sum) :
    ∀ (succs : List (Transition × WorldState)) (open_ : List Entry)
      (bestG : List (String × ℚ)) (ctr : Nat),
      (∀ x ∈ open_, x.g = (x.path.map Transition.cost).sum) →
      ∀ x ∈ (pushSuccessors e succs open_ bestG ctr).1,
        x.g = (x.path.map Transition.cost).sum := by
  intro succs
  induction succs with
  | nil => intro open_ bestG ctr hall x hx; exact hall x hx
  | cons ts' rest ih =>
    obtain ⟨t, s'⟩ := ts'
    intro open_ bestG ctr hall x hx
    simp only [pushSuccessors] at hx
    cases hlk : lookupG bestG s'.id with
    | some b =>
      simp only [hlk] at hx
      by_cases hle : b ≤ e.g + t.cost
      · rw [if_pos hle] at hx
        exact ih open_ bestG ctr hall x hx
      · rw [if_neg hle] at hx
        refine ih _ _ _ ?_ x hx
        intro z hz
        rcases List.mem_append.mp hz with hz | hz
        · exact hall z hz
        · rw [List.mem_singleton] at hz
          subst hz
          simp [he, List.map_append, List.sum_append]
    | none =>
      simp only [hlk] at hx
      refine ih _ _ _ ?_ x hx
      intro z hz
      rcases List.mem_append.mp hz with hz | hz
      · exact hall z hz
      · rw [List.mem_singleton] at hz
        subst hz
        simp [he, List.map_append, List.sum_append]

theorem aStarStep_found_cost (vt : List Variable) (goals : List Condition)
    (ts : List Transition) (open_ : List Entry) (bestG : List (String × ℚ))
    (ctr : Nat) (path : List Transition) (g : ℚ) (st : WorldState)
    (hall : ∀ x ∈ open_, x.g = (x.path.map Transition.cost).sum)
    (h : aStarStep vt goals ts open_ bestG ctr = .found path g st) :
    g = (path.map Transition.cost).sum := by
  unfold aStarStep at h
  split at h
  · exact absurd h (by simp)
  · rename_i pr e rest hsm
    split at h
    · exact absurd h (by simp)
    · split at h
      · have hmem := selectMin_mem vt goals open_ e rest hsm
        cases h
        exact hall e hmem.1
      · exact absurd h (by simp)

theorem aStarStep_next_inv (vt : List Variable) (goals : List Condition)
    (ts : List Transition) (open_ : List Entry) (bestG : List (String × ℚ))
    (ctr : Nat) (o : List Entry) (b : List (String × ℚ)) (c : Nat)
    (hall : ∀ x ∈ open_, x.g = (x.path.map Transition.cost).sum)
    (h : aStarStep vt goals ts open_ bestG ctr = .next o b c) :
    ∀ x ∈ o, x.g = (x.path.map Transition.cost).sum := by
  unfold aStarStep at h
  split at h
  · exact absurd h (by simp)
  · rename_i pr e rest hsm
    have hmem := selectMin_mem vt goals open_ e rest hsm
    split at h
    · cases h
      exact fun x hx => hall x (hmem.2 x hx)
    · split at h
      · exact absurd h (by simp)
      · cases h
        exact pushSuccessors_path_cost e (hall e hmem.1)
          (successors ts e.state) rest bestG ctr
          (fun x hx => hall x (hmem.2 x hx))

theorem aStarLoop_cost (vt : List Variable) (goals : List Condition)
    (ts : List Transition) (s0 : WorldState) :
    ∀ (fuel : Nat) (open_ : List Entry) (bestG : List (String × ℚ)) (ctr : Nat),
      (∀ x ∈ open_, x.g = (x.path.map Transition.cost).sum) →
      (aStarLoop vt goals ts s0 fuel open_ bestG ctr).totalCost
        = ((aStarLoop vt goals ts s0 fuel open_ bestG ctr).path.map
            Transition.cost).sum := by
  intro fuel
  induction fuel with
  | zero => intro open_ bestG ctr _; simp [aStarLoop]
  | succ n ih =>
    intro open_ bestG ctr hall
    simp only [aStarLoop]
    cases hstep : aStarStep vt goals ts open_ bestG ctr with
    | unreachable => simp
    | found path g st =>
      exact aStarStep_found_cost vt goals ts open_ bestG ctr path g st hall hstep
    | next o b c =>
      exact ih o b c (aStarStep_next_inv vt goals ts open_ bestG ctr o b c hall hstep)

end Goap

namespace Goap

theorem length_filterMap_action :
    ∀ (l : List Transition),
      (l.filterMap (fun t => t.action)).length
        = (l.filter (fun t => t.action.isSome)).length := by
  intro l
  induction l with
  | nil => rfl
  | cons t ts ih =>
    cases ha : t.action with
    | none => simp [List.filterMap_cons, List.filter_cons, ha, ih]
    | some a => simp [List.filterMap_cons, List.filter_cons, ha, ih]

/-- C6: for every planner result, `totalSteps` is the length of the fired
transition list, the number of emitted actions is the number of fired
transitions whose `action` field is set (order preserved by the filter), and
`totalCost` is the sum of the costs of the fired transitions. -/
theorem C6_plan_arithmetic (vt : List Variable) (ts : List Transition)
    (init : List VariableValueInput) (goal : List Condition)
    (s0 : WorldState) (core : PlanCore)
    (h : generateActionPlanCore vt ts init goal = .ok (s0, core)) :
    (mkPlanFromCore s0 core).totalSteps = (mkPlanFromCore s0 core).transitions.length
    ∧ (mkPlanFromCore s0 core).actions.length
        = (core.path.filter (fun t => t.action.isSome)).length
    ∧ (mkPlanFromCore s0 core).totalCost = (core.path.map Transition.cost).sum := by
  unfold generateActionPlanCore at h
  cases hm : mkWorldState ⟨vt, none, some init⟩ with
  | error e => rw [hm] at h; exact absurd h (by simp)
  | ok s0' =>
    rw [hm] at h
    simp only [Except.ok.injEq, Prod.mk.injEq] at h
    obtain ⟨hs, hc⟩ := h
    subst hs
    refine ⟨?_, ?_, ?_⟩
    · show core.path.length = (core.path.map (fun t => t.id)).length
      rw [List.length_map]
    · exact length_filterMap_action core.path
    · show core.totalCost = _
      rw [← hc]
      exact aStarLoop_cost vt goal ts s0' 100000 [⟨s0', 0, [], 0⟩] [(s0'.id, 0)] 1
        (by intro x hx
            rw [List.mem_singleton] at hx
            subst hx
            simp)

/-- Witness for C6 at a concrete planner run. -/
theorem C6_plan_arithmetic_witness :
    (mkPlanFromCore exWorldX0 ⟨.FOUND, [], 0, exWorldX0⟩).totalSteps
        = (mkPlanFromCore exWorldX0 ⟨.FOUND, [], 0, exWorldX0⟩).transitions.length
    ∧ (mkPlanFromCore exWorldX0 ⟨.FOUND, [], 0, exWorldX0⟩).actions.length
        = ((⟨.FOUND, [], 0, exWorldX0⟩ : PlanCore).path.filter
            (fun t => t.action.isSome)).length
    ∧ (mkPlanFromCore exWorldX0 ⟨.FOUND, [], 0, exWorldX0⟩).totalCost
        = ((⟨.FOUND, [], 0, exWorldX0⟩ : PlanCore).path.map Transition.cost).sum :=
  C6_plan_arithmetic exVarsXY [] [exInX 0] [] exWorldX0
    ⟨.FOUND, [], 0, exWorldX0⟩ (by decide)

end Goap


namespace Goap

/-- C7: with an empty goal list the planner dequeues the start node first, the
empty conjunction is trivially satisfied, and the result is `FOUND` with zero
transitions, zero cost, and `finalState = initialState`. -/
theorem C7_empty_goal (vt : List Variable) (ts : List Transition)
    (init : List VariableValueInput) (s0 : WorldState)
    (h : mkWorldState ⟨vt, none, some init⟩ = .ok s0) :
    ∃ plan, generateActionPlan vt ts init [] = .ok plan
      ∧ plan.status = .FOUND ∧ plan.transitions = [] ∧ plan.totalSteps = 0
      ∧ plan.totalCost = 0 ∧ plan.finalState = plan.initialState := by
  have hsel : selectMin vt [] [(⟨s0, 0, [], 0⟩ : Entry)]
      = some (⟨s0, 0, [], 0⟩, []) := rfl
  have hlk : lookupG [(s0.id, 0)] s0.id = some 0 := by
    unfold lookupG
    simp [List.find?]
  have hstep : aStarStep vt [] ts [⟨s0, 0, [], 0⟩] [(s0.id, 0)] 1
      = .found [] 0 s0 := by
    simp only [aStarStep, hsel, hlk, Option.getD_some, lt_self_iff_false, if_false]
    rfl
  have hloop : aStarLoop vt [] ts s0 100000 [⟨s0, 0, [], 0⟩] [(s0.id, 0)] 1
      = ⟨.FOUND, [], 0, s0⟩ := by
    rw [show (100000 : Nat) = 99999 + 1 from rfl]
    rw [aStarLoop]
    rw [hstep]
  simp only [generateActionPlan, generateActionPlanCore, h, hloop]
  exact ⟨mkPlanFromCore s0 ⟨.FOUND, [], 0, s0⟩, rfl, rfl, rfl, rfl, rfl, rfl⟩

/-- Witness for C7 at a concrete model. -/
theorem C7_empty_goal_witness :
    ∃ plan, generateActionPlan exVarsXY [] [exInX 0] [] = .ok plan
      ∧ plan.status = .FOUND ∧ plan.transitions = [] ∧ plan.totalSteps = 0
      ∧ plan.totalCost = 0 ∧ plan.finalState = plan.initialState :=
  C7_empty_goal exVarsXY [] [exInX 0] exWorldX0 (by decide)

end Goap

namespace Goap

theorem mem_keys_of_get (s : WorldState) (vid : String) (v : Value)
    (h : s.get vid = some v) : vid ∈ keysOf s.entries := by
  unfold WorldState.get at h
  cases hf : s.entries.find? (fun p => p.1 == vid) with
  | none => rw [hf] at h; simp at h
  | some p =>
    have hp : p ∈ s.entries := List.mem_of_find?_eq_some hf
    have hpe : p.1 = vid := by
      have h2 := List.find?_some hf
      simpa using h2
    rw [← hpe]
    exact List.mem_map_of_mem (fun p => p.1) hp

theorem keysOf_jsAssign_of_mem (es : List (String × VariableValue)) (k : String)
    (v : VariableValue) (h : k ∈ keysOf es) :
    keysOf (jsAssign es k v) = keysOf es := by
  rw [keysOf_jsAssign, if_pos h]

theorem applyEffect_state_inv (ks : List String) (s s' : WorldState) (e : Effect)
    (hinv : stateKeysInv ks s) (h : applyEffect s e = .ok s') :
    stateKeysInv ks s' := by
  unfold applyEffect at h
  cases hg : getE s e.variableId with
  | error err => simp only [hg] at h; exact absurd h (by simp)
  | ok lhs =>
    simp only [hg] at h
    cases hr : resolveOperand s e.argument with
    | error err => simp only [hr] at h; exact absurd h (by simp)
    | ok rhs =>
      simp only [hr] at h
      cases ha : applyOp e.assignmentOperator lhs rhs with
      | error err => simp only [ha] at h; exact absurd h (by simp)
      | ok v =>
        simp only [ha, Except.ok.injEq] at h
        subst h
        have hmem : e.variableId ∈ keysOf s.entries := by
          unfold getE at hg
          cases hget : s.get e.variableId with
          | none => rw [hget] at hg; exact absurd hg (by simp)
          | some w => exact mem_keys_of_get s e.variableId w hget
        constructor
        · show keysOf (jsAssign s.entries e.variableId ⟨e.variableId, v⟩) = ks
          rw [keysOf_jsAssign_of_mem s.entries e.variableId _ hmem]
          exact hinv.1
        · exact jsAssign_vid e.variableId ⟨e.variableId, v⟩ rfl s.entries hinv.2

theorem applyEffects_state_inv (ks : List String) :
    ∀ (effs : List Effect) (s s' : WorldState),
      stateKeysInv ks s → applyEffects effs s = .ok s' → stateKeysInv ks s' := by
  intro effs
  induction effs with
  | nil =>
    intro s s' hinv h
    simp only [applyEffects, Except.ok.injEq] at h
    subst h
    exact hinv
  | cons e effs ih =>
    intro s s' hinv h
    simp only [applyEffects] at h
    cases he : applyEffect s e with
    | error err => rw [he] at h; exact absurd h (by simp)
    | ok s1 =>
      rw [he] at h
      exact ih s1 s' (applyEffect_state_inv ks s s1 e hinv he) h

theorem successors_state_inv (ks : List String) (ts : List Transition)
    (s : WorldState) (hinv : stateKeysInv ks s) :
    ∀ (t : Transition) (s' : WorldState),
      (t, s') ∈ successors ts s → stateKeysInv ks s' := by
  intro t s' hmem
  unfold successors at hmem
  rcases List.mem_filterMap.mp hmem with ⟨t', ht'mem, ht'⟩
  cases hen : isEnabled t' s with
  | error e => rw [hen] at ht'; exact absurd ht' (by simp)
  | ok b =>
    cases b with
    | false => rw [hen] at ht'; exact absurd ht' (by simp)
    | true =>
      rw [hen] at ht'
      cases hf : fire t' s with
      | error e => rw [hf] at ht'; exact absurd ht' (by simp)
      | ok s3 =>
        rw [hf] at ht'
        simp only [Option.some.injEq, Prod.mk.injEq] at ht'
        obtain ⟨hteq, hseq⟩ := ht'
        subst hseq
        exact applyEffects_state_inv ks t'.effects s s3 hinv hf

theorem pushSuccessors_state_inv (ks : List String) (e : Entry) :
    ∀ (succs : List (Transition × WorldState)) (open_ : List Entry)
      (bestG : List (String × ℚ)) (ctr : Nat),
      (∀ x ∈ open_, stateKeysInv ks x.state) →
      (∀ (t : Transition) (s' : WorldState), (t, s') ∈ succs → stateKeysInv ks s') →
      ∀ x ∈ (pushSuccessors e succs open_ bestG ctr).1,
        stateKeysInv ks x.state := by
  intro succs
  induction succs with
  | nil => intro open_ bestG ctr hall _ x hx; exact hall x hx
  | cons ts' rest ih =>
    obtain ⟨t, s'⟩ := ts'
    intro open_ bestG ctr hall hsucc x hx
    simp only [pushSuccessors] at hx
    have hrest : ∀ (t2 : Transition) (s2 : WorldState),
        (t2, s2) ∈ rest → stateKeysInv ks s2 :=
      fun t2 s2 hm => hsucc t2 s2 (List.mem_cons_of_mem (t, s') hm)
    have hs' : stateKeysInv ks s' := hsucc t s' (List.mem_cons_self (t, s') rest)
    cases hlk : lookupG bestG s'.id with
    | some b =>
      simp only [hlk] at hx
      by_cases hle : b ≤ e.g + t.cost
      · rw [if_pos hle] at hx
        exact ih open_ bestG ctr hall hrest x hx
      · rw [if_neg hle] at hx
        refine ih _ _ _ ?_ hrest x hx
        intro z hz
        rcases List.mem_append.mp hz with hz | hz
        · exact hall z hz
        · rw [List.mem_singleton] at hz
          subst hz
          exact hs'
    | none =>
      simp only [hlk] at hx
      refine ih _ _ _ ?_ hrest x hx
      intro z hz
      rcases List.mem_append.mp hz with hz | hz
      · exact hall z hz
      · rw [List.mem_singleton] at hz
        subst hz
        exact hs'

theorem aStarStep_found_state_inv (ks : List String) (vt : List Variable)
    (goals : List Condition) (ts : List Transition) (open_ : List Entry)
    (bestG : List (String × ℚ)) (ctr : Nat) (path : List Transition) (g : ℚ)
    (st : WorldState)
    (hall : ∀ x ∈ open_, stateKeysInv ks x.state)
    (h : aStarStep vt goals ts open_ bestG ctr = .found path g st) :
    stateKeysInv ks st := by
  unfold aStarStep at h
  split at h
  · exact absurd h (by simp)
  · rename_i pr e rest hsm
    split at h
    · exact absurd h (by simp)
    · split at h
      · have hmem := selectMin_mem vt goals open_ e rest hsm
        cases h
        exact hall e hmem.1
      · exact absurd h (by simp)

theorem aStarStep_next_state_inv (ks : List String) (vt : List Variable)
    (goals : List Condition) (ts : List Transition) (open_ : List Entry)
    (bestG : List (String × ℚ)) (ctr : Nat) (o : List Entry)
    (b : List (String × ℚ)) (c : Nat)
    (hall : ∀ x ∈ open_, stateKeysInv ks x.state)
    (h : aStarStep vt goals ts open_ bestG ctr = .next o b c) :
    ∀ x ∈ o, stateKeysInv ks x.state := by
  unfold aStarStep at h
  split at h
  · exact absurd h (by simp)
  · rename_i pr e rest hsm
    have hmem := selectMin_mem vt goals open_ e rest hsm
    split at h
    · cases h
      exact fun x hx => hall x (hmem.2 x hx)
    · split at h
      · exact absurd h (by simp)
      · cases h
        exact pushSuccessors_state_inv ks e (successors ts e.state) rest bestG ctr
          (fun x hx => hall x (hmem.2 x hx))
          (fun t s' hm => successors_state_inv ks ts e.state (hall e hmem.1) t s' hm)

theorem aStarLoop_final_state_inv (ks : List String) (vt : List Variable)
    (goals : List Condition) (ts : List Transition) (s0 : WorldState)
    (hs0 : stateKeysInv ks s0) :
    ∀ (fuel : Nat) (open_ : List Entry) (bestG : List (String × ℚ)) (ctr : Nat),
      (∀ x ∈ open_, stateKeysInv ks x.state) →
      stateKeysInv ks (aStarLoop vt goals ts s0 fuel open_ bestG ctr).finalState := by
  intro fuel
  induction fuel with
  | zero => intro open_ bestG ctr _; exact hs0
  | succ n ih =>
    intro open_ bestG ctr hall
    simp only [aStarLoop]
    cases hstep : aStarStep vt goals ts open_ bestG ctr with
    | unreachable => exact hs0
    | found path g st =>
      exact aStarStep_found_state_inv ks vt goals ts open_ bestG ctr path g st
        hall hstep
    | next o b c =>
      exact ih o b c
        (aStarStep_next_state_inv ks vt goals ts open_ bestG ctr o b c hall hstep)

theorem toGraphQL_map_vid (s : WorldState) (ids : List String)
    (hkeys : keysOf s.entries = ids)
    (hvid : ∀ p ∈ s.entries, (p : String × VariableValue).2.variableId = p.1)
    (hnk : ∀ k ∈ ids, natKey k = none) :
    (WorldState.toGraphQL s).map (fun v => v.variableId) = ids := by
  have hnkes : ∀ p ∈ s.entries, natKey (p : String × VariableValue).1 = none := by
    intro p hp
    exact hnk p.1 (hkeys ▸ List.mem_map_of_mem (fun p => p.1) hp)
  unfold WorldState.toGraphQL WorldState.values
  rw [jsPropOrder_no_natKeys s.entries hnkes]
  rw [List.map_map]
  simp only [Function.comp_def]
  rw [map_eq_of_forall (fun p => (p : String × VariableValue).2.variableId)
    (fun p => p.1) s.entries (fun p hp => hvid p hp)]
  exact hkeys

/-- C4 (amended): `ActionPlan.initialState` and `ActionPlan.finalState` both
list the bound variables in the JavaScript property order of the built state —
for distinct non-array-index ids this is exactly the input binding order, not
the canonical sorted-by-variable-id order — and variables without a binding
are omitted.  `finalState` keeps the same key listing because a successful
effect always updates a key the state already has, in place. -/
theorem C4_plan_state_order (vt : List Variable) (ts : List Transition)
    (init : List VariableValueInput) (goal : List Condition) (plan : ActionPlan)
    (h : generateActionPlan vt ts init goal = .ok plan)
    (hnd : (init.map (fun b => b.variableId)).Nodup)
    (hnk : ∀ b ∈ init, natKey b.variableId = none) :
    plan.initialState.map (fun v => v.variableId)
      = init.map (fun b => b.variableId)
    ∧ plan.finalState.map (fun v => v.variableId)
      = init.map (fun b => b.variableId) := by
  unfold generateActionPlan generateActionPlanCore at h
  cases hm : mkWorldState ⟨vt, none, some init⟩ with
  | error e => rw [hm] at h; exact absurd h (by simp)
  | ok s0 =>
    rw [hm] at h
    simp only [Except.ok.injEq] at h
    subst h
    unfold mkWorldState at hm
    cases hb : buildEntries vt (wsBindings ⟨vt, none, some init⟩) [] with
    | error e => rw [hb] at hm; exact absurd hm (by simp)
    | ok es =>
      rw [hb] at hm
      simp only [Except.ok.injEq] at hm
      subst hm
      have hbs : wsBindings ⟨vt, none, some init⟩ = init := rfl
      rw [hbs] at hb
      have hkeys : keysOf es = init.map (fun b => b.variableId) := by
        rw [buildEntries_keys vt init [] es hb]
        have hdd : dedupKeepFirst (init.map (fun b => b.variableId))
            = init.map (fun b => b.variableId) := dedupKeepFirst_of_nodup _ hnd
        rw [← hdd]
        unfold dedupKeepFirst
        rw [List.foldl_map]
        rfl
      have hvid : ∀ p ∈ es, (p : String × VariableValue).2.variableId = p.1 :=
        buildEntries_vid vt init [] es hb (fun p hp => absurd hp (List.not_mem_nil p))
      have hnk' : ∀ k ∈ init.map (fun b => b.variableId), natKey k = none := by
        intro k hk
        rcases List.mem_map.mp hk with ⟨b, hbm, hbe⟩
        rw [← hbe]
        exact hnk b hbm
      have hinv0 : stateKeysInv (init.map (fun b => b.variableId)) ⟨es⟩ :=
        ⟨hkeys, hvid⟩
      have hfin := aStarLoop_final_state_inv (init.map (fun b => b.variableId))
        vt goal ts ⟨es⟩ hinv0 100000 [⟨⟨es⟩, 0, [], 0⟩]
        [((⟨es⟩ : WorldState).id, 0)] 1
        (by intro x hx
            rw [List.mem_singleton] at hx
            subst hx
            exact hinv0)
      constructor
      · show (WorldState.toGraphQL ⟨es⟩).map (fun v => v.variableId) = _
        exact toGraphQL_map_vid ⟨es⟩ _ hkeys hvid hnk'
      · show (WorldState.toGraphQL (aStarLoop vt goal ts ⟨es⟩ 100000
            [⟨⟨es⟩, 0, [], 0⟩] [((⟨es⟩ : WorldState).id, 0)] 1).finalState).map
              (fun v => v.variableId) = _
        exact toGraphQL_map_vid _ _ hfin.1 hfin.2 hnk'

/-- Witness for C4 (amended) at the two-binding input: both state listings
come out in the supplied order `b, a`. -/
theorem C4_plan_state_order_witness :
    (ActionPlan.initialState ⟨[], [], 0, 0, [⟨"b", .int 2⟩, ⟨"a", .int 1⟩],
        [⟨"b", .int 2⟩, ⟨"a", .int 1⟩], .FOUND⟩).map (fun v => v.variableId)
      = [exInB 2, exInA 1].map (fun b => b.variableId)
    ∧ (ActionPlan.finalState ⟨[], [], 0, 0, [⟨"b", .int 2⟩, ⟨"a", .int 1⟩],
        [⟨"b", .int 2⟩, ⟨"a", .int 1⟩], .FOUND⟩).map (fun v => v.variableId)
      = [exInB 2, exInA 1].map (fun b => b.variableId) :=
  C4_plan_state_order exVarsAB [] [exInB 2, exInA 1] [] _
    (by decide) (by decide) (by decide)

end Goap
